import Mathlib

/-!
Verification of the gesture-resolution and playback engine of the sign-mvp
repository.  The Python modules under src/ are shallowly embedded as Lean
functions:

* src/signs/interpolator.py      : keyframe interpolation (poses over ℚ²)
* src/avatar_engines/stick/loader.py    : gesture loading and validation
* src/avatar_engines/stick/generator.py : per-gloss frame generation with fallback
* src/avatar_engines/human_video/gloss_mapper.py : source-preference ranking
* src/avatar_engines/human_video/video_loader.py : cache eviction, HTTP retry loop
* src/avatar_engines/human_video/video_compositor.py : clip concatenation
* src/pipeline/process_audio.py  : per-gloss validity markers (process_with_stick)

Machine floats of the source are modelled as rationals; dictionaries as
association lists (lookup = first matching key); file-system state and the
network as explicit oracles.
-/

namespace SignMVP

/-! ### Interpolator (src/signs/interpolator.py) -/

/-- One keyframe of a gesture: a normalized time and a partial pose.
A partial pose is a dictionary from joint name to a 2D coordinate,
modelled as an association list. -/
structure Keyframe where
  time : ℚ
  pose : List (String × (ℚ × ℚ))
deriving DecidableEq

/-- Dictionary lookup in a partial pose (first binding wins, as in a dict
whose keys are unique). -/
def lookupJ (pp : List (String × (ℚ × ℚ))) (j : String) : Option (ℚ × ℚ) :=
  (pp.find? (fun e => e.1 == j)).map (fun e => e.2)

/-- The six joints of VALID_JOINTS in src/signs/loader.py. -/
def VALID_JOINTS : List String :=
  ["LEFT_SHOULDER", "LEFT_ELBOW", "LEFT_WRIST",
   "RIGHT_SHOULDER", "RIGHT_ELBOW", "RIGHT_WRIST"]

/-- The static default_pose dictionary of src/signs/interpolator.py
(its keys are exactly VALID_JOINTS; 0.45 = 9/20, 0.4 = 2/5, 0.55 = 11/20). -/
def defaultFor (j : String) : ℚ × ℚ :=
  if j = "LEFT_SHOULDER" then (mkRat 45 100, mkRat 1 2)
  else if j = "LEFT_ELBOW" then (mkRat 45 100, mkRat 45 100)
  else if j = "LEFT_WRIST" then (mkRat 45 100, mkRat 2 5)
  else if j = "RIGHT_SHOULDER" then (mkRat 55 100, mkRat 1 2)
  else if j = "RIGHT_ELBOW" then (mkRat 55 100, mkRat 45 100)
  else if j = "RIGHT_WRIST" then (mkRat 55 100, mkRat 2 5)
  else (0, 0)

/-- A fully defined output pose: after interpolate_gesture fills missing
joints from default_pose, the result defines exactly the six valid joints,
so it is modelled as a record with one field per joint. -/
structure Pose where
  leftShoulder : ℚ × ℚ
  leftElbow : ℚ × ℚ
  leftWrist : ℚ × ℚ
  rightShoulder : ℚ × ℚ
  rightElbow : ℚ × ℚ
  rightWrist : ℚ × ℚ
deriving DecidableEq

/-- Build the output pose from a per-joint valuation. -/
def mkPose (f : String → ℚ × ℚ) : Pose :=
  ⟨f "LEFT_SHOULDER", f "LEFT_ELBOW", f "LEFT_WRIST",
   f "RIGHT_SHOULDER", f "RIGHT_ELBOW", f "RIGHT_WRIST"⟩

/-- linear_interpolate of src/signs/interpolator.py. -/
def linearInterpolate (s e t : ℚ) : ℚ :=
  s + (e - s) * t

/-- Value of one valid joint after interpolate_pose followed by the
default fill of interpolate_gesture.  The source iterates over the union
of the two key sets, resolves each side against default_pose, skips the
arithmetic when both sides agree, and finally fills joints absent from
both sides from default_pose; per valid joint this is exactly: -/
def jointVal (prev next : List (String × (ℚ × ℚ))) (t : ℚ) (j : String) : ℚ × ℚ :=
  if (lookupJ prev j).isSome || (lookupJ next j).isSome then
    let pc := (lookupJ prev j).getD (defaultFor j)
    let nc := (lookupJ next j).getD (defaultFor j)
    if pc = nc then pc
    else (linearInterpolate pc.1 nc.1 t, linearInterpolate pc.2 nc.2 t)
  else defaultFor j

/-- A partial pose completed with default_pose values, as a full pose. -/
def fillDefaults (pp : List (String × (ℚ × ℚ))) : Pose :=
  mkPose (fun j => (lookupJ pp j).getD (defaultFor j))

/-- Clamping of the progress value at the top of find_surrounding_keyframes. -/
def clampQ (x : ℚ) : ℚ :=
  max 0 (min 1 x)

/-- Last element of a nonempty list given as head and tail (keyframes[-1]). -/
def lastKF (k : Keyframe) : List Keyframe → Keyframe
  | [] => k
  | k2 :: rest => lastKF k2 rest

/-- The linear scan of find_surrounding_keyframes: the first adjacent pair
with keyframes[i].time <= progress <= keyframes[i+1].time, if any. -/
def findBracket (p : ℚ) : List Keyframe → Option (Keyframe × Keyframe)
  | a :: b :: rest =>
    if a.time ≤ p ∧ p ≤ b.time then some (a, b) else findBracket p (b :: rest)
  | _ => none

/-- find_surrounding_keyframes of src/signs/interpolator.py.  The Python
function raises on an empty list (keyframes[0]); this is modelled as none. -/
def findSurroundingKeyframes (kfs : List Keyframe) (progress : ℚ) :
    Option (Keyframe × Keyframe × ℚ) :=
  let p := clampQ progress
  match kfs with
  | [] => none
  | k :: rest =>
    if rest = [] then some (k, k, 0)
    else
      let lastk := lastKF k rest
      if p ≤ k.time then some (k, k, 0)
      else if lastk.time ≤ p then some (lastk, lastk, 0)
      else
        let br := (findBracket p (k :: rest)).getD (k, lastk)
        let tr := br.2.time - br.1.time
        some (br.1, br.2, if tr = 0 then 0 else (p - br.1.time) / tr)

/-- The pose produced for a progress value: find_surrounding_keyframes
followed by interpolate_pose and the default fill of interpolate_gesture. -/
def interpolatedPoseAt (kfs : List Keyframe) (progress : ℚ) : Option Pose :=
  (findSurroundingKeyframes kfs progress).map
    (fun r => mkPose (jointVal r.1.pose r.2.1.pose r.2.2))

/-! ### Gesture loader (src/avatar_engines/stick/loader.py) -/

/-- A loaded gesture: name, authored frame count, keyframe list. -/
structure Gesture where
  name : String
  frames : ℕ
  keyframes : List Keyframe
deriving DecidableEq

/-- The in-memory gesture index (a dict from stored name to gesture). -/
abbrev Store : Type :=
  List (String × Gesture)

/-- Dict lookup in the index. -/
def lookupStore (store : Store) (key : String) : Option Gesture :=
  (store.find? (fun e => e.1 == key)).map (fun e => e.2)

/-- Python str.upper, modelled directly on the character list. -/
def upperString (s : String) : String :=
  ⟨s.data.map Char.toUpper⟩

/-- get_gesture: looks the name up after uppercasing. -/
def getGesture (store : Store) (name : String) : Option Gesture :=
  lookupStore store (upperString name)

/-- gesture_exists. -/
def gestureExists (store : Store) (name : String) : Bool :=
  (getGesture store name).isSome

/-- A raw gesture definition as parsed from JSON: every field may be
missing.  Coordinates arrive as a JSON array of rationals. -/
structure RawKeyframe where
  time : Option ℚ
  pose : Option (List (String × List ℚ))
deriving DecidableEq

/-- A raw gesture file. -/
structure RawGestureDef where
  name : Option String
  frames : Option ℕ
  keyframes : Option (List RawKeyframe)
deriving DecidableEq

/-- Per-keyframe validation of _load_gesture_file: time present and in
[0,1], pose present, every coordinate a two-element list.  Unknown joint
names and out-of-range coordinates only produce warnings. -/
def keyframeOk (kf : RawKeyframe) : Bool :=
  match kf.time, kf.pose with
  | some t, some pose =>
    decide (0 ≤ t) && decide (t ≤ 1) && pose.all (fun jc => jc.2.length == 2)
  | _, _ => false

/-- Interpretation of a validated raw keyframe. -/
def toKeyframe (kf : RawKeyframe) : Keyframe :=
  ⟨kf.time.getD 0,
   (kf.pose.getD []).map (fun jc => (jc.1, (jc.2.headD 0, (jc.2.drop 1).headD 0)))⟩

/-- Ordering of keyframes by time (the sort key of _load_gesture_file). -/
def kfLe (a b : Keyframe) : Prop :=
  a.time ≤ b.time

/-- Strict ordering of keyframes by time (pairwise distinct times). -/
def kfLt (a b : Keyframe) : Prop :=
  a.time < b.time

instance : DecidableRel kfLt :=
  fun a b => inferInstanceAs (Decidable (a.time < b.time))

instance : DecidableRel kfLe :=
  fun a b => inferInstanceAs (Decidable (a.time ≤ b.time))

instance : IsTotal Keyframe kfLe :=
  ⟨fun a b => le_total a.time b.time⟩

instance : IsTrans Keyframe kfLe :=
  ⟨fun _ _ _ h1 h2 => le_trans h1 h2⟩

/-- _load_gesture_file: checks the required fields, validates every
keyframe, sorts the keyframes by time and returns the gesture; any
failure is absorbed into none (the except branch returns None). -/
def loadGestureFile (raw : RawGestureDef) : Option Gesture :=
  match raw.name, raw.frames, raw.keyframes with
  | some name, some frames, some kfs =>
    if kfs = [] then none
    else if kfs.all keyframeOk then
      some ⟨name, frames, List.insertionSort kfLe (kfs.map toKeyframe)⟩
    else none
  | _, _, _ => none

/-- Dict assignment: replace the binding if the key is present, else append. -/
def insertReplace (store : Store) (key : String) (g : Gesture) : Store :=
  match store with
  | [] => [(key, g)]
  | (k, v) :: rest =>
    if k = key then (key, g) :: rest else (k, v) :: insertReplace rest key g

/-- One iteration of the load loop of _load_all_gestures: a definition
that fails to load is skipped, a loaded one is stored under its name. -/
def loadStep (store : Store) (raw : RawGestureDef) : Store :=
  match loadGestureFile raw with
  | some g => insertReplace store g.name g
  | none => store

/-- _load_all_gestures over a list of raw definitions. -/
def loadAllGestures (raws : List RawGestureDef) : Store :=
  raws.foldl loadStep []

/-- The validation invariant the spec ascribes to every stored gesture
(minus the name condition, see claim C9): nonempty keyframes, sorted
ascending by time, every time in [0,1]. -/
def gestureWellFormed (g : Gesture) : Prop :=
  g.keyframes ≠ [] ∧ List.Chain' kfLe g.keyframes ∧
    ∀ kf ∈ g.keyframes, 0 ≤ kf.time ∧ kf.time ≤ 1

instance (g : Gesture) : Decidable (gestureWellFormed g) :=
  inferInstanceAs (Decidable (_ ∧ _ ∧ _))

/-! ### Generator (src/avatar_engines/stick/generator.py) -/

/-- The idle pose: a copy of default_pose. -/
def idlePose : Pose :=
  mkPose defaultFor

/-- interpolate_gesture: load the gesture, compute the progress from the
authored frame count (frames is always present after validation, so the
total_frames default of gesture.get is never taken), interpolate. -/
def interpolateGesture (store : Store) (name : String) (frame : ℕ)
    (_totalFrames : ℕ) : Option Pose :=
  match getGesture store name with
  | none => none
  | some g =>
    let progress : ℚ := if g.frames ≤ 1 then 0 else (frame : ℚ) / ((g.frames : ℚ) - 1)
    interpolatedPoseAt g.keyframes progress

/-- generate_keypoints: exact gesture, else FINGERSPELL placeholder for
glosses of at most three characters, else UNKNOWN placeholder, else the
idle pose for every frame; a per-frame interpolation failure degrades
that frame to idle. -/
def generateKeypoints (store : Store) (gloss : String) (frames : ℕ)
    (useFallback : Bool) : List Pose :=
  if gestureExists store gloss then
    (List.range frames).map (fun f => (interpolateGesture store gloss f frames).getD idlePose)
  else if useFallback then
    let fb := if gloss.length ≤ 3 then "FINGERSPELL" else "UNKNOWN"
    if gestureExists store fb then
      (List.range frames).map (fun f => (interpolateGesture store fb f frames).getD idlePose)
    else
      (List.range frames).map (fun _ => idlePose)
  else
    (List.range frames).map (fun _ => idlePose)

/-! ### Validity markers (process_with_stick in src/pipeline/process_audio.py) -/

/-- The three fallback tiers of the generator. -/
inductive FallbackTier where
  | exact
  | fingerspelled
  | unknownWord
deriving DecidableEq

/-- The tier generate_keypoints uses for a gloss (with fallback enabled). -/
def glossTier (store : Store) (gloss : String) : FallbackTier :=
  if gestureExists store gloss then FallbackTier.exact
  else if gloss.length ≤ 3 then FallbackTier.fingerspelled
  else FallbackTier.unknownWord

/-- The marker string a tier maps to in process_with_stick. -/
def markerOfTier (t : FallbackTier) (gloss : String) : String :=
  match t with
  | FallbackTier.exact => gloss
  | FallbackTier.fingerspelled => gloss ++ "*"
  | FallbackTier.unknownWord => gloss ++ "?"

/-- The per-gloss marker computed by process_with_stick: the gloss itself
for an exact gesture, gloss* for a fingerspell fallback, gloss? for an
unknown fallback. -/
def glossMarker (store : Store) (gloss : String) : String :=
  if gestureExists store gloss then gloss
  else if gloss.length ≤ 3 then gloss ++ "*"
  else gloss ++ "?"

/-- The valid_glosses list process_with_stick builds, parallel to the
input gloss sequence. -/
def validGlossMarkers (store : Store) (glosses : List String) : List String :=
  glosses.map (glossMarker store)

/-! ### Gloss mapper (src/avatar_engines/human_video/gloss_mapper.py) -/

/-- One WLASL catalog candidate for a gloss; video.get('source') may be
absent, hence an Option. -/
structure VideoCandidate where
  source : Option String
  videoId : String
deriving DecidableEq

/-- PREFERRED_SOURCES of src/avatar_engines/human_video/config.py. -/
def PREFERRED_SOURCES : List String :=
  ["signschool", "asldeafined", "valencia-asl", "startasl", "handspeak",
   "signingsavvy", "aslu", "aslpro", "aslsignbank", "aslbrick"]

/-- The inner loop of get_best_video: the first candidate in catalog
order whose source equals the given one. -/
def findVideoWithSource (s : String) : List VideoCandidate → Option VideoCandidate
  | [] => none
  | v :: rest => if v.source = some s then some v else findVideoWithSource s rest

/-- The outer loop of get_best_video over the preference list. -/
def bestBySources : List String → List VideoCandidate → Option VideoCandidate
  | [], _ => none
  | s :: rest, videos =>
    match findVideoWithSource s videos with
    | some v => some v
    | none => bestBySources rest videos

/-- get_best_video over a gloss's candidate list. -/
def getBestVideo (videos : List VideoCandidate) : Option VideoCandidate :=
  match videos with
  | [] => none
  | v0 :: _ =>
    match bestBySources PREFERRED_SOURCES videos with
    | some w => some w
    | none => some v0

/-- Position of a string in a list (length of the list when absent). -/
def idxOf (s : String) : List String → ℕ
  | [] => 0
  | t :: rest => if s = t then 0 else idxOf s rest + 1

/-- The score of get_best_videos_with_alternatives: PREFERRED_SOURCES.index
of video.get('source', ''), or len(PREFERRED_SOURCES)+1 on ValueError. -/
def sourceScore (v : VideoCandidate) : ℕ :=
  let s := v.source.getD ""
  if s ∈ PREFERRED_SOURCES then idxOf s PREFERRED_SOURCES
  else PREFERRED_SOURCES.length + 1

/-- Stable insertion of a scored candidate (list.sort with key x[0]). -/
def scoredInsert (x : ℕ × VideoCandidate) :
    List (ℕ × VideoCandidate) → List (ℕ × VideoCandidate)
  | [] => [x]
  | y :: rest => if x.1 ≤ y.1 then x :: y :: rest else y :: scoredInsert x rest

/-- Stable sort of scored candidates by ascending score, as Python's
stable list.sort. -/
def scoredSort : List (ℕ × VideoCandidate) → List (ℕ × VideoCandidate)
  | [] => []
  | x :: rest => scoredInsert x (scoredSort rest)

/-- get_best_videos_with_alternatives: score every candidate, stable-sort
by score, return the first max_results candidates. -/
def getBestVideosWithAlternatives (videos : List VideoCandidate)
    (maxResults : ℕ) : List VideoCandidate :=
  match videos with
  | [] => []
  | _ :: _ =>
    let scored := videos.map (fun v => (sourceScore v, v))
    ((scoredSort scored).take maxResults).map (fun p => p.2)

/-- Specification-side rank of a candidate relative to a preference
list: the index of its source, or the list length when the source is
absent or unranked. -/
def rankIn (prefs : List String) (v : VideoCandidate) : ℕ :=
  match v.source with
  | none => prefs.length
  | some s => idxOf s prefs

/-- Specification-side selector: the first element of the list attaining
the minimal value of f (catalog-order tie-break). -/
def firstMinBy {α : Type} (f : α → ℕ) : List α → Option α
  | [] => none
  | v :: rest =>
    match firstMinBy f rest with
    | none => some v
    | some w => if f v ≤ f w then some v else some w

/-! ### Video cache (src/avatar_engines/human_video/video_loader.py) -/

/-- MAX_CACHE_SIZE_GB of config.py. -/
def MAX_CACHE_SIZE_GB : ℚ :=
  10

/-- A cached .mp4 file as seen by the eviction sweep: path, st_mtime,
st_size in bytes. -/
structure CacheFile where
  path : String
  mtime : ℚ
  size : ℕ
deriving DecidableEq

/-- Total size of the cache directory in GB (_get_cache_size_gb). -/
def totalGB (files : List CacheFile) : ℚ :=
  ((files.map (fun f => (f.size : ℚ))).sum) / 1024 ^ 3

/-- Ordering of cache files by modification time (oldest first). -/
def mtimeLe (a b : CacheFile) : Prop :=
  a.mtime ≤ b.mtime

instance : DecidableRel mtimeLe :=
  fun a b => inferInstanceAs (Decidable (a.mtime ≤ b.mtime))

instance : IsTotal CacheFile mtimeLe :=
  ⟨fun a b => le_total a.mtime b.mtime⟩

instance : IsTrans CacheFile mtimeLe :=
  ⟨fun _ _ _ h1 h2 => le_trans h1 h2⟩

/-- The removal loop of _cleanup_cache: walk the mtime-sorted list,
stop as soon as the running size is at most the target, unlink
otherwise.  Returns (removed, remaining); every unlink succeeds. -/
def evictLoop (target : ℚ) : List CacheFile → ℚ → List CacheFile × List CacheFile
  | [], _ => ([], [])
  | f :: rest, cur =>
    if cur ≤ target then ([], f :: rest)
    else
      let p := evictLoop target rest (cur - (f.size : ℚ) / 1024 ^ 3)
      (f :: p.1, p.2)

/-- _cleanup_cache: sort by modification time, then remove oldest first
until the running total is at most the target size. -/
def cleanupCache (files : List CacheFile) (target : ℚ) :
    List CacheFile × List CacheFile :=
  let sorted := List.insertionSort mtimeLe files
  evictLoop target sorted (totalGB sorted)

/-- The cache admission control of download_video: when usage is at or
above 90 percent of the ceiling, sweep down to 70 percent of it.
Returns (removed, remaining). -/
def cacheAdmission (files : List CacheFile) : List CacheFile × List CacheFile :=
  if MAX_CACHE_SIZE_GB * (9/10) ≤ totalGB files then
    cleanupCache files (MAX_CACHE_SIZE_GB * (7/10))
  else ([], files)

/-- MAX_RETRIES of config.py. -/
def MAX_RETRIES : ℕ :=
  3

/-- Outcome of one iteration of the retry loop of _download_http_video:
the request itself fails (nothing opened); the connection drops after
the file was opened for writing and some bytes were written; or the
stream completes with a declared content length and a byte count. -/
inductive HttpAttemptOutcome where
  | requestError
  | midWriteError (written : ℕ)
  | completed (contentLength : ℕ) (bodyBytes : ℕ)
deriving DecidableEq

/-- The retry loop of _download_http_video.  The state is the cache-path
file: none when absent, some n when an n-byte file is on disk.  On a
completed stream the file holds the body; it is unlinked and the attempt
counted as failed only when a positive declared length exceeds the byte
count.  An exception part way through writing leaves the file as the
except branch performs no cleanup. -/
def runHttpDownload (cachePath : String) :
    List HttpAttemptOutcome → Option ℕ → Option String × Option ℕ
  | [], fileState => (none, fileState)
  | a :: rest, fileState =>
    match a with
    | HttpAttemptOutcome.requestError => runHttpDownload cachePath rest fileState
    | HttpAttemptOutcome.midWriteError w => runHttpDownload cachePath rest (some w)
    | HttpAttemptOutcome.completed total body =>
      if 0 < total ∧ body < total then runHttpDownload cachePath rest none
      else (some cachePath, some body)

/-- is_cached: existence of the cache-path file is the sole test. -/
def isCachedState (fileState : Option ℕ) : Bool :=
  fileState.isSome

/-! ### Compositor (src/avatar_engines/human_video/video_compositor.py) -/

/-- The file system and codec environment of composite_videos: which
paths exist and which of them VideoFileClip can load (a clip is opaque). -/
structure CompositorEnv where
  fileExists : String → Bool
  loadClip : String → Option ℕ

/-- A path survives the loading loop iff it exists and loads. -/
def clipLoads (env : CompositorEnv) (p : String) : Bool :=
  env.fileExists p && (env.loadClip p).isSome

/-- composite_videos: no paths is an error; a single path is returned
unchanged (before any load attempt); otherwise the clips that load are
concatenated and written to the output path (a generated temp name when
none is given); a write failure or an empty clip list yields none.
Gloss labels only influence the generated name, abstracted by tempName. -/
def compositeVideos (env : CompositorEnv) (videoPaths : List String)
    (outputPath : Option String) (writeOk : Bool) (tempName : String) :
    Option String :=
  match videoPaths with
  | [] => none
  | [p] => some p
  | _ :: _ :: _ =>
    let clips := videoPaths.filter (fun p => clipLoads env p)
    if clips = [] then none
    else if writeOk then some (outputPath.getD tempName) else none

/-! ### Concrete instances used by counterexamples and witnesses -/

/-- A store holding the single gesture AB whose one keyframe carries an
empty pose, so every generated frame equals the idle pose. -/
def c5Store : Store :=
  [("AB", ⟨"AB", 1, [⟨0, []⟩]⟩)]

/-- First keyframe of the duplicate-time counterexample. -/
def c6kfA : Keyframe :=
  ⟨mkRat 1 2, [("LEFT_WRIST", (0, 0))]⟩

/-- Second keyframe of the duplicate-time counterexample: same time,
different pose. -/
def c6kfB : Keyframe :=
  ⟨mkRat 1 2, [("LEFT_WRIST", (1, 1))]⟩

/-- Keyframes used by the clamping witness. -/
def c7Kfs : List Keyframe :=
  [⟨0, []⟩, ⟨1, [("LEFT_WRIST", (mkRat 1 2, mkRat 1 2))]⟩]

/-- Two cached files of 5 GB each, the first one older. -/
def c2Files : List CacheFile :=
  [⟨"b.mp4", 2, 5 * 1024 ^ 3⟩, ⟨"a.mp4", 1, 5 * 1024 ^ 3⟩]

/-- An environment in which no path exists and nothing loads. -/
def deadEnv : CompositorEnv :=
  ⟨fun _ => false, fun _ => none⟩

/-- A raw definition that loads (keyframes arrive unsorted). -/
def c9GoodRaw : RawGestureDef :=
  ⟨some "WAVE", some 30,
   some [⟨some (mkRat 1 2), some [("LEFT_WRIST", [mkRat 1 2, mkRat 1 2])]⟩,
         ⟨some 0, some []⟩]⟩

/-- The gesture c9GoodRaw loads to. -/
def c9Gesture : Gesture :=
  ⟨"WAVE", 30, [⟨0, []⟩, ⟨mkRat 1 2, [("LEFT_WRIST", (mkRat 1 2, mkRat 1 2))]⟩]⟩

/-- A raw definition missing every field. -/
def c9BadRaw : RawGestureDef :=
  ⟨none, none, none⟩

/-- A raw definition whose name is the empty string; it passes
validation because only presence of the name is checked. -/
def c9EmptyNameRaw : RawGestureDef :=
  ⟨some "", some 30, some [⟨some 0, some []⟩]⟩

/-- Candidate list for the C10 witness. -/
def c10Videos : List VideoCandidate :=
  [⟨some "handspeak", "v1"⟩, ⟨some "startasl", "v2"⟩, ⟨none, "v3"⟩]

/-! ### Helper lemmas -/

theorem clampQ_one : clampQ 1 = 1 := by
  simp [clampQ]

theorem clampQ_zero : clampQ 0 = 0 := by
  simp [clampQ]

theorem clampQ_of_one_lt {p : ℚ} (h : 1 < p) : clampQ p = clampQ 1 := by
  rw [clampQ_one]
  simp [clampQ, min_eq_left h.le]

theorem clampQ_of_lt_zero {p : ℚ} (h : p < 0) : clampQ p = clampQ 0 := by
  rw [clampQ_zero]
  have h1 : p ≤ 1 := le_of_lt (lt_trans h one_pos)
  simp [clampQ, min_eq_right h1, max_eq_left h.le]

theorem fsk_congr (kfs : List Keyframe) {a b : ℚ} (h : clampQ a = clampQ b) :
    findSurroundingKeyframes kfs a = findSurroundingKeyframes kfs b := by
  unfold findSurroundingKeyframes
  rw [h]

theorem interpolatedPoseAt_congr (kfs : List Keyframe) {a b : ℚ}
    (h : clampQ a = clampQ b) :
    interpolatedPoseAt kfs a = interpolatedPoseAt kfs b := by
  unfold interpolatedPoseAt
  rw [fsk_congr kfs h]

theorem filter_eq_nil_of_forall_false {l : List String} {f : String → Bool}
    (h : ∀ p ∈ l, f p = false) : l.filter f = [] := by
  induction l with
  | nil => rfl
  | cons a t ih =>
    have ha := h a (List.mem_cons_self a t)
    simp only [List.filter_cons, ha, Bool.false_eq_true, if_false]
    exact ih (fun p hp => h p (List.mem_cons_of_mem a hp))

theorem string_ne_append_star (g : String) : g ≠ g ++ "*" := by
  intro h
  have hl := congrArg String.length h
  have hone : ("*" : String).length = 1 := rfl
  rw [String.length_append, hone] at hl
  omega

theorem string_ne_append_qm (g : String) : g ≠ g ++ "?" := by
  intro h
  have hl := congrArg String.length h
  have hone : ("?" : String).length = 1 := rfl
  rw [String.length_append, hone] at hl
  omega

theorem string_append_star_ne_qm (g : String) : g ++ "*" ≠ g ++ "?" := by
  intro h
  have hd := congrArg String.data h
  rw [String.data_append, String.data_append] at hd
  have : ("*" : String).data = ("?" : String).data := List.append_cancel_left hd
  simp [String.data] at this

theorem glossMarker_eq_markerOfTier (store : Store) (g : String) :
    glossMarker store g = markerOfTier (glossTier store g) g := by
  unfold glossMarker glossTier markerOfTier
  by_cases h1 : gestureExists store g
  · simp [h1]
  · by_cases h2 : g.length ≤ 3 <;> simp [h1, h2]

/-- The removal loop of _cleanup_cache, specified: when started at the
true running total, it stops at or below a nonnegative target and the
removed files are an initial segment of the list it walked. -/
theorem evictLoop_spec (target : ℚ) (htarget : 0 ≤ target) :
    ∀ (l : List CacheFile) (cur : ℚ), cur = totalGB l →
      totalGB (evictLoop target l cur).2 ≤ target ∧
        (evictLoop target l cur).1 ++ (evictLoop target l cur).2 = l := by
  intro l
  induction l with
  | nil =>
    intro cur _
    constructor
    · simpa [evictLoop, totalGB] using htarget
    · simp [evictLoop]
  | cons f rest ih =>
    intro cur hcur
    by_cases hc : cur ≤ target
    · constructor
      · simp only [evictLoop, if_pos hc]
        rw [← hcur]
        exact hc
      · simp [evictLoop, hc]
    · have hstep : cur - (f.size : ℚ) / 1024 ^ 3 = totalGB rest := by
        rw [hcur]
        simp only [totalGB, List.map_cons, List.sum_cons, add_div]
        ring
      have hrec := ih (cur - (f.size : ℚ) / 1024 ^ 3) hstep
      constructor
      · simpa [evictLoop, hc] using hrec.1
      · simp only [evictLoop, hc, if_false, List.cons_append]
        rw [hrec.2]

theorem totalGB_insertionSort (files : List CacheFile) :
    totalGB (List.insertionSort mtimeLe files) = totalGB files := by
  unfold totalGB
  congr 1
  exact List.Perm.sum_eq ((List.perm_insertionSort mtimeLe files).map _)

/-! ### Claim theorems -/

/-- C1.  The claim says that every failed or short HTTP download deletes
the partial file at the cache path, so no failed download is later
treated as a valid cached video.  The code violates this: when the
connection drops part way through writing (here 5 bytes on the first of
MAX_RETRIES attempts, the remaining attempts failing before the file is
reopened), the retry loop returns failure yet the 5-byte file stays on
disk and is_cached reports it as cached; moreover a completed stream
with a declared content length of 0 and an empty body is returned as a
success with a 0-byte file. -/
theorem c1_failed_download_keeps_file :
    runHttpDownload "v001.mp4"
        [HttpAttemptOutcome.midWriteError 5, HttpAttemptOutcome.requestError,
         HttpAttemptOutcome.requestError] none = (none, some 5) ∧
      isCachedState (some 5) = true ∧
      [HttpAttemptOutcome.midWriteError 5, HttpAttemptOutcome.requestError,
       HttpAttemptOutcome.requestError].length = MAX_RETRIES ∧
      runHttpDownload "v001.mp4" [HttpAttemptOutcome.completed 0 0] none =
        (some "v001.mp4", some 0) := by
  exact ⟨rfl, rfl, rfl, rfl⟩

/-- C2.  When a download request finds the cache at or above 90 percent
of the ceiling, the admission control runs the eviction sweep, after
which (every deletion succeeding) the total size is at most 70 percent
of the ceiling, and the removed files are exactly an initial segment of
the cached files ordered by ascending modification time. -/
theorem c2_cache_eviction (files : List CacheFile)
    (h : MAX_CACHE_SIZE_GB * (9/10) ≤ totalGB files) :
    cacheAdmission files = cleanupCache files (MAX_CACHE_SIZE_GB * (7/10)) ∧
      totalGB (cacheAdmission files).2 ≤ MAX_CACHE_SIZE_GB * (7/10) ∧
      (cacheAdmission files).1 ++ (cacheAdmission files).2 =
        List.insertionSort mtimeLe files := by
  have htarget : (0:ℚ) ≤ MAX_CACHE_SIZE_GB * (7/10) := by
    norm_num [MAX_CACHE_SIZE_GB]
  have hadm : cacheAdmission files = cleanupCache files (MAX_CACHE_SIZE_GB * (7/10)) := by
    unfold cacheAdmission
    rw [if_pos h]
  have hspec := evictLoop_spec (MAX_CACHE_SIZE_GB * (7/10)) htarget
    (List.insertionSort mtimeLe files)
    (totalGB (List.insertionSort mtimeLe files)) rfl
  refine ⟨hadm, ?_, ?_⟩
  · rw [hadm]
    exact hspec.1
  · rw [hadm]
    exact hspec.2

/-- Witness for c2_cache_eviction at two 5-GB files. -/
theorem c2_cache_eviction_witness :
    MAX_CACHE_SIZE_GB * (9/10) ≤ totalGB c2Files ∧
      (cacheAdmission c2Files = cleanupCache c2Files (MAX_CACHE_SIZE_GB * (7/10)) ∧
        totalGB (cacheAdmission c2Files).2 ≤ MAX_CACHE_SIZE_GB * (7/10) ∧
        (cacheAdmission c2Files).1 ++ (cacheAdmission c2Files).2 =
          List.insertionSort mtimeLe c2Files) :=
  ⟨by norm_num [totalGB, c2Files, MAX_CACHE_SIZE_GB],
   c2_cache_eviction c2Files (by norm_num [totalGB, c2Files, MAX_CACHE_SIZE_GB])⟩

/-- C7.  For every keyframe list, a progress value outside [0,1] yields
exactly the result at the nearest boundary: find_surrounding_keyframes
(and hence the interpolated pose) at p > 1 equals the result at 1, and
at p < 0 equals the result at 0. -/
theorem c7_out_of_range_progress_clamps (kfs : List Keyframe) (p : ℚ) :
    (1 < p →
      findSurroundingKeyframes kfs p = findSurroundingKeyframes kfs 1 ∧
        interpolatedPoseAt kfs p = interpolatedPoseAt kfs 1) ∧
      (p < 0 →
        findSurroundingKeyframes kfs p = findSurroundingKeyframes kfs 0 ∧
          interpolatedPoseAt kfs p = interpolatedPoseAt kfs 0) := by
  constructor
  · intro h
    exact ⟨fsk_congr kfs (clampQ_of_one_lt h),
      interpolatedPoseAt_congr kfs (clampQ_of_one_lt h)⟩
  · intro h
    exact ⟨fsk_congr kfs (clampQ_of_lt_zero h),
      interpolatedPoseAt_congr kfs (clampQ_of_lt_zero h)⟩

/-- Witness for c7_out_of_range_progress_clamps at p = 3/2 and p = -1. -/
theorem c7_out_of_range_progress_clamps_witness :
    ((1:ℚ) < 3/2 ∧
      findSurroundingKeyframes c7Kfs (3/2) = findSurroundingKeyframes c7Kfs 1 ∧
        interpolatedPoseAt c7Kfs (3/2) = interpolatedPoseAt c7Kfs 1) ∧
      ((-1:ℚ) < 0 ∧
        findSurroundingKeyframes c7Kfs (-1) = findSurroundingKeyframes c7Kfs 0 ∧
          interpolatedPoseAt c7Kfs (-1) = interpolatedPoseAt c7Kfs 0) :=
  ⟨⟨by norm_num, (c7_out_of_range_progress_clamps c7Kfs (3/2)).1 (by norm_num)⟩,
   ⟨by norm_num, (c7_out_of_range_progress_clamps c7Kfs (-1)).2 (by norm_num)⟩⟩

/-- C8 counterexample.  The claim says composite_videos returns none
whenever zero of the supplied clips load successfully.  For a singleton
list the code returns the path unchanged before any load attempt, even
when the file does not exist, so the claim fails. -/
theorem c8_counterexample :
    clipLoads deadEnv "ghost.mp4" = false ∧
      compositeVideos deadEnv ["ghost.mp4"] none true "tmp.mp4" =
        some "ghost.mp4" :=
  ⟨rfl, rfl⟩

/-- C8 as amended.  For every list of at least two clip paths of which
none loads successfully, composite_videos returns none (the hard
failure); a singleton list is returned unchanged without a load attempt. -/
theorem c8_zero_loaded_yields_none (env : CompositorEnv) (paths : List String)
    (outputPath : Option String) (writeOk : Bool) (tempName : String)
    (hlen : 2 ≤ paths.length)
    (hfail : ∀ p ∈ paths, clipLoads env p = false) :
    compositeVideos env paths outputPath writeOk tempName = none := by
  match paths, hlen with
  | p1 :: p2 :: rest, _ =>
    have hnil : (p1 :: p2 :: rest).filter (fun p => clipLoads env p) = [] :=
      filter_eq_nil_of_forall_false hfail
    simp [compositeVideos, hnil]

/-- Witness for c8_zero_loaded_yields_none on two dead paths. -/
theorem c8_zero_loaded_yields_none_witness :
    2 ≤ (["a.mp4", "b.mp4"] : List String).length ∧
      (∀ p ∈ (["a.mp4", "b.mp4"] : List String), clipLoads deadEnv p = false) ∧
      compositeVideos deadEnv ["a.mp4", "b.mp4"] none true "tmp.mp4" = none :=
  ⟨by decide, by decide,
   c8_zero_loaded_yields_none deadEnv ["a.mp4", "b.mp4"] none true "tmp.mp4"
     (by decide) (by decide)⟩

/-- C5 counterexample.  The claim says the generator's return value
tells the caller which fallback tier a gloss used.  It does not: the
generator returns only the pose list, and for the store c5Store the
gloss AB (exact tier) and the gloss CD (fingerspell tier) produce equal
return values, so no marker can be recovered from them. -/
theorem c5_counterexample :
    glossTier c5Store "AB" = FallbackTier.exact ∧
      glossTier c5Store "CD" = FallbackTier.fingerspelled ∧
      generateKeypoints c5Store "AB" 1 true = generateKeypoints c5Store "CD" 1 true := by
  exact ⟨by decide, by decide, by decide⟩

/-- C5 as amended.  The per-gloss validity markers distinguishing the
exact, fingerspell and unknown tiers are computed by the caller
process_with_stick, which returns a marker list parallel to the gloss
sequence: the gloss itself, gloss*, or gloss?; these three markers are
pairwise distinct, so the marker determines the tier. -/
theorem c5_markers_computed_by_caller :
    (∀ (store : Store) (glosses : List String),
      validGlossMarkers store glosses =
        glosses.map (fun g => markerOfTier (glossTier store g) g)) ∧
      ∀ (t1 t2 : FallbackTier) (g : String),
        markerOfTier t1 g = markerOfTier t2 g → t1 = t2 := by
  constructor
  · intro store glosses
    unfold validGlossMarkers
    exact List.map_congr_left (fun g _ => glossMarker_eq_markerOfTier store g)
  · intro t1 t2 g h
    cases t1 <;> cases t2 <;> simp only [markerOfTier] at h ⊢
    · exact absurd h (string_ne_append_star g)
    · exact absurd h (string_ne_append_qm g)
    · exact absurd h.symm (string_ne_append_star g)
    · exact absurd h (string_append_star_ne_qm g)
    · exact absurd h.symm (string_ne_append_qm g)
    · exact absurd h.symm (string_append_star_ne_qm g)

/-- Witness for c5_markers_computed_by_caller on a concrete store and
sequence, and a concrete marker equation. -/
theorem c5_markers_computed_by_caller_witness :
    validGlossMarkers c5Store ["AB", "CD", "HELLO"] =
        List.map (fun g => markerOfTier (glossTier c5Store g) g)
          ["AB", "CD", "HELLO"] ∧
      FallbackTier.unknownWord = FallbackTier.unknownWord :=
  ⟨c5_markers_computed_by_caller.1 c5Store ["AB", "CD", "HELLO"],
   c5_markers_computed_by_caller.2 FallbackTier.unknownWord
     FallbackTier.unknownWord "HELLO" rfl⟩

/-! ### Resolver ranking lemmas (claims C3 and C10) -/

theorem rankIn_cons (s : String) (rest : List String) (v : VideoCandidate) :
    rankIn (s :: rest) v =
      if v.source = some s then 0 else rankIn rest v + 1 := by
  cases hv : v.source with
  | none => simp [rankIn, hv]
  | some t =>
    by_cases ht : t = s
    · simp [rankIn, idxOf, hv, ht]
    · simp [rankIn, idxOf, hv, ht]

theorem findVideoWithSource_eq_some {s : String} :
    ∀ {l : List VideoCandidate} {v : VideoCandidate},
      findVideoWithSource s l = some v → v.source = some s ∧ v ∈ l := by
  intro l
  induction l with
  | nil => intro v h; simp [findVideoWithSource] at h
  | cons u us ih =>
    intro v h
    by_cases hu : u.source = some s
    · simp only [findVideoWithSource, if_pos hu, Option.some.injEq] at h
      subst h
      exact ⟨hu, List.mem_cons_self u us⟩
    · simp only [findVideoWithSource, if_neg hu] at h
      obtain ⟨h1, h2⟩ := ih h
      exact ⟨h1, List.mem_cons_of_mem u h2⟩

theorem findVideoWithSource_eq_none {s : String} :
    ∀ {l : List VideoCandidate}, findVideoWithSource s l = none →
      ∀ v ∈ l, v.source ≠ some s := by
  intro l
  induction l with
  | nil => intro _ v hv; simp at hv
  | cons u us ih =>
    intro h v hv
    by_cases hu : u.source = some s
    · simp [findVideoWithSource, hu] at h
    · simp only [findVideoWithSource, if_neg hu] at h
      rcases List.mem_cons.mp hv with rfl | hv2
      · exact hu
      · exact ih h v hv2

theorem firstMinBy_mem {α : Type} (f : α → ℕ) :
    ∀ {l : List α} {w : α}, firstMinBy f l = some w → w ∈ l := by
  intro l
  induction l with
  | nil => intro w h; simp [firstMinBy] at h
  | cons v rest ih =>
    intro w h
    cases hr : firstMinBy f rest with
    | none =>
      simp only [firstMinBy, hr, Option.some.injEq] at h
      subst h
      exact List.mem_cons_self v rest
    | some u =>
      simp only [firstMinBy, hr] at h
      by_cases hle : f v ≤ f u
      · rw [if_pos hle, Option.some.injEq] at h
        subst h
        exact List.mem_cons_self v rest
      · rw [if_neg hle, Option.some.injEq] at h
        subst h
        exact List.mem_cons_of_mem v (ih hr)

theorem firstMinBy_congr {α : Type} {f g : α → ℕ} :
    ∀ {l : List α}, (∀ u ∈ l, ∀ v ∈ l, (f u ≤ f v ↔ g u ≤ g v)) →
      firstMinBy f l = firstMinBy g l := by
  intro l
  induction l with
  | nil => intro _; rfl
  | cons v rest ih =>
    intro h
    have hrest : ∀ u ∈ rest, ∀ w ∈ rest, (f u ≤ f w ↔ g u ≤ g w) :=
      fun u hu w hw =>
        h u (List.mem_cons_of_mem v hu) w (List.mem_cons_of_mem v hw)
    have hr := ih hrest
    cases hg : firstMinBy g rest with
    | none => simp [firstMinBy, hr, hg]
    | some w =>
      have hwmem : w ∈ rest := firstMinBy_mem g hg
      have hiff := h v (List.mem_cons_self v rest) w (List.mem_cons_of_mem v hwmem)
      by_cases hle : g v ≤ g w
      · simp [firstMinBy, hr, hg, hle, hiff.mpr hle]
      · have hnf : ¬ f v ≤ f w := fun hc => hle (hiff.mp hc)
        simp [firstMinBy, hr, hg, hle, hnf]

theorem firstMinBy_of_const {α : Type} {f : α → ℕ} {c : ℕ} :
    ∀ {l : List α}, (∀ v ∈ l, f v = c) → firstMinBy f l = l.head? := by
  intro l
  induction l with
  | nil => intro _; rfl
  | cons v rest ih =>
    intro h
    have hr := ih (fun u hu => h u (List.mem_cons_of_mem v hu))
    cases rest with
    | nil => simp [firstMinBy]
    | cons w t =>
      have hv : f v = c := h v (List.mem_cons_self _ _)
      have hw : f w = c := h w (List.mem_cons_of_mem v (List.mem_cons_self _ _))
      simp only [List.head?] at hr
      have hcons : firstMinBy f (v :: w :: t) =
          match firstMinBy f (w :: t) with
          | none => some v
          | some u => if f v ≤ f u then some v else some u := rfl
      rw [hcons, hr]
      simp [hv, hw]

theorem firstMinBy_of_find {s : String} {rest : List String} :
    ∀ {l : List VideoCandidate} {v : VideoCandidate},
      findVideoWithSource s l = some v →
        firstMinBy (rankIn (s :: rest)) l = some v := by
  intro l
  induction l with
  | nil => intro v h; simp [findVideoWithSource] at h
  | cons u us ih =>
    intro v h
    by_cases hu : u.source = some s
    · simp only [findVideoWithSource, if_pos hu, Option.some.injEq] at h
      subst h
      have hz : rankIn (s :: rest) u = 0 := by
        rw [rankIn_cons, if_pos hu]
      cases hr : firstMinBy (rankIn (s :: rest)) us with
      | none => simp [firstMinBy, hr]
      | some w => simp [firstMinBy, hr, hz]
    · simp only [findVideoWithSource, if_neg hu] at h
      have hr := ih h
      have hvs : v.source = some s := (findVideoWithSource_eq_some h).1
      have hvz : rankIn (s :: rest) v = 0 := by
        rw [rankIn_cons, if_pos hvs]
      have huz : rankIn (s :: rest) u = rankIn rest u + 1 := by
        rw [rankIn_cons, if_neg hu]
      have hnle : ¬ rankIn (s :: rest) u ≤ rankIn (s :: rest) v := by
        rw [hvz, huz]
        omega
      simp [firstMinBy, hr, hnle]

theorem bestBySources_eq_none :
    ∀ (prefs : List String) (l : List VideoCandidate),
      bestBySources prefs l = none → ∀ v ∈ l, rankIn prefs v = prefs.length := by
  intro prefs
  induction prefs with
  | nil =>
    intro l _ v _
    cases hv : v.source with
    | none => simp [rankIn, hv]
    | some t => simp [rankIn, idxOf, hv]
  | cons s rest ih =>
    intro l h v hv
    cases hf : findVideoWithSource s l with
    | some w => simp [bestBySources, hf] at h
    | none =>
      simp only [bestBySources, hf] at h
      have hvs : v.source ≠ some s := findVideoWithSource_eq_none hf v hv
      rw [rankIn_cons, if_neg hvs, ih l h v hv]
      simp

theorem bestBySources_eq_some :
    ∀ (prefs : List String) (l : List VideoCandidate) (w : VideoCandidate),
      bestBySources prefs l = some w → firstMinBy (rankIn prefs) l = some w := by
  intro prefs
  induction prefs with
  | nil => intro l w h; simp [bestBySources] at h
  | cons s rest ih =>
    intro l w h
    cases hf : findVideoWithSource s l with
    | some v =>
      simp only [bestBySources, hf, Option.some.injEq] at h
      subst h
      exact firstMinBy_of_find hf
    | none =>
      simp only [bestBySources, hf] at h
      have hnos := findVideoWithSource_eq_none hf
      have hiff : ∀ u ∈ l, ∀ v ∈ l,
          (rankIn (s :: rest) u ≤ rankIn (s :: rest) v ↔
            rankIn rest u ≤ rankIn rest v) := by
        intro u hu v hv
        rw [rankIn_cons, if_neg (hnos u hu), rankIn_cons, if_neg (hnos v hv)]
        omega
      rw [firstMinBy_congr hiff]
      exact ih l w h

theorem getBestVideo_eq_firstMinBy (videos : List VideoCandidate) :
    getBestVideo videos = firstMinBy (rankIn PREFERRED_SOURCES) videos := by
  cases videos with
  | nil => rfl
  | cons v0 vs =>
    cases hb : bestBySources PREFERRED_SOURCES (v0 :: vs) with
    | some w =>
      rw [getBestVideo, hb, (bestBySources_eq_some _ _ _ hb)]
    | none =>
      rw [getBestVideo, hb,
        firstMinBy_of_const (bestBySources_eq_none _ _ hb)]
      rfl

/-- C3.  get_best_video returns exactly the first candidate in catalog
order among those whose source has the minimal index in
PREFERRED_SOURCES (a candidate with an absent or unranked source having
rank equal to the list length): the lowest-ranked source wins, ties
resolve to catalog order, and when no candidate is ranked all ranks are
equal so the first catalog entry is returned. -/
theorem c3_best_video_is_rank_minimizer (videos : List VideoCandidate) :
    getBestVideo videos = firstMinBy (rankIn PREFERRED_SOURCES) videos :=
  getBestVideo_eq_firstMinBy videos

theorem idxOf_le_length (s : String) : ∀ prefs : List String,
    idxOf s prefs ≤ prefs.length := by
  intro prefs
  induction prefs with
  | nil => simp [idxOf]
  | cons t rest ih =>
    by_cases h : s = t
    · simp [idxOf, h]
    · simp only [idxOf, if_neg h, List.length_cons]
      omega

theorem idxOf_lt_length_iff (s : String) : ∀ prefs : List String,
    s ∈ prefs ↔ idxOf s prefs < prefs.length := by
  intro prefs
  induction prefs with
  | nil => simp [idxOf]
  | cons t rest ih =>
    by_cases h : s = t
    · simp [idxOf, h]
    · have hstep : idxOf s (t :: rest) = idxOf s rest + 1 := by
        simp [idxOf, h]
      rw [List.mem_cons, hstep, List.length_cons, ih]
      simp only [h, false_or]
      constructor <;> omega

theorem rankIn_le_length (v : VideoCandidate) : ∀ prefs : List String,
    rankIn prefs v ≤ prefs.length := by
  intro prefs
  cases hv : v.source with
  | none => simp [rankIn, hv]
  | some s => simp [rankIn, hv, idxOf_le_length]

theorem sourceScore_cases (v : VideoCandidate) :
    sourceScore v =
      if rankIn PREFERRED_SOURCES v < PREFERRED_SOURCES.length then
        rankIn PREFERRED_SOURCES v
      else PREFERRED_SOURCES.length + 1 := by
  cases hv : v.source with
  | none =>
    have hmem : ("" : String) ∉ PREFERRED_SOURCES := by decide
    simp [sourceScore, rankIn, hv, hmem]
  | some s =>
    by_cases hmem : s ∈ PREFERRED_SOURCES
    · have hlt := (idxOf_lt_length_iff s PREFERRED_SOURCES).mp hmem
      simp [sourceScore, rankIn, hv, hmem, hlt]
    · have hge : ¬ idxOf s PREFERRED_SOURCES < PREFERRED_SOURCES.length :=
        fun hc => hmem ((idxOf_lt_length_iff s PREFERRED_SOURCES).mpr hc)
      simp [sourceScore, rankIn, hv, hmem, hge]

theorem sourceScore_rank_iff (u v : VideoCandidate) :
    sourceScore u ≤ sourceScore v ↔
      rankIn PREFERRED_SOURCES u ≤ rankIn PREFERRED_SOURCES v := by
  have hu := rankIn_le_length u PREFERRED_SOURCES
  have hv := rankIn_le_length v PREFERRED_SOURCES
  rw [sourceScore_cases u, sourceScore_cases v]
  split_ifs <;> omega

theorem scoredInsert_ne_nil (x : ℕ × VideoCandidate) :
    ∀ l : List (ℕ × VideoCandidate), scoredInsert x l ≠ [] := by
  intro l
  cases l with
  | nil => simp [scoredInsert]
  | cons y t =>
    by_cases h : x.1 ≤ y.1 <;> simp [scoredInsert, h]

theorem scoredSort_head? : ∀ l : List (ℕ × VideoCandidate),
    (scoredSort l).head? = firstMinBy (fun p => p.1) l := by
  intro l
  induction l with
  | nil => rfl
  | cons x rest ih =>
    cases hs : scoredSort rest with
    | nil =>
      have hnone : firstMinBy (fun p : ℕ × VideoCandidate => p.1) rest = none := by
        rw [← ih, hs]
        rfl
      simp only [scoredSort, hs, firstMinBy, hnone]
      simp [scoredInsert]
    | cons w t =>
      have hw : firstMinBy (fun p : ℕ × VideoCandidate => p.1) rest = some w := by
        rw [← ih, hs]
        rfl
      simp only [scoredSort, hs, firstMinBy, hw]
      by_cases h : x.1 ≤ w.1 <;> simp [scoredInsert, h]

theorem firstMinBy_fst_map_score : ∀ videos : List VideoCandidate,
    firstMinBy (fun p : ℕ × VideoCandidate => p.1)
        (videos.map (fun v => (sourceScore v, v))) =
      (firstMinBy sourceScore videos).map (fun v => (sourceScore v, v)) := by
  intro videos
  induction videos with
  | nil => rfl
  | cons v rest ih =>
    simp only [List.map_cons, firstMinBy, ih]
    cases h : firstMinBy sourceScore rest with
    | none => rfl
    | some w =>
      simp only [Option.map_some]
      by_cases hle : sourceScore v ≤ sourceScore w <;> simp [hle]

theorem head?_take_of_pos {α : Type} (l : List α) {k : ℕ} (hk : 1 ≤ k) :
    (l.take k).head? = l.head? := by
  cases k with
  | zero => omega
  | succ m =>
    cases l with
    | nil => rfl
    | cons a t => rfl

/-- C10.  For every nonempty candidate list and every max_results of at
least one, the head of get_best_videos_with_alternatives equals
get_best_video: the single-best and the ranked-alternatives operations
agree on the top choice. -/
theorem c10_top_choice_agrees (videos : List VideoCandidate) (k : ℕ)
    (hne : videos ≠ []) (hk : 1 ≤ k) :
    (getBestVideosWithAlternatives videos k).head? = getBestVideo videos := by
  match videos, hne with
  | v0 :: vs, _ =>
    simp only [getBestVideosWithAlternatives]
    rw [List.head?_map, head?_take_of_pos _ hk, scoredSort_head?,
      firstMinBy_fst_map_score]
    have hcongr : firstMinBy sourceScore (v0 :: vs) =
        firstMinBy (rankIn PREFERRED_SOURCES) (v0 :: vs) :=
      firstMinBy_congr (fun u _ v _ => sourceScore_rank_iff u v)
    rw [getBestVideo_eq_firstMinBy]
    cases h : firstMinBy (rankIn PREFERRED_SOURCES) (v0 :: vs) with
    | none => rw [hcongr, h]; rfl
    | some w => rw [hcongr, h]; rfl

/-- Witness for c10_top_choice_agrees at a concrete catalog entry. -/
theorem c10_top_choice_agrees_witness :
    c10Videos ≠ [] ∧ 1 ≤ 5 ∧
      (getBestVideosWithAlternatives c10Videos 5).head? = getBestVideo c10Videos :=
  ⟨by decide, by decide, c10_top_choice_agrees c10Videos 5 (by decide) (by decide)⟩

/-- C4.  For every gloss absent from the store and every requested frame
count n, the generator (with fallback enabled) returns exactly n poses;
each frame is generated from the FINGERSPELL placeholder when the gloss
has at most three characters and from the UNKNOWN placeholder otherwise,
and when the chosen placeholder is itself absent every frame is the idle
pose. -/
theorem c4_fallback_frames (store : Store) (gloss : String) (n : ℕ)
    (h : gestureExists store gloss = false) :
    (generateKeypoints store gloss n true).length = n ∧
      ∀ f, f < n →
        (generateKeypoints store gloss n true)[f]? =
          some
            (if gestureExists store
                (if gloss.length ≤ 3 then "FINGERSPELL" else "UNKNOWN") then
              (interpolateGesture store
                (if gloss.length ≤ 3 then "FINGERSPELL" else "UNKNOWN") f n).getD
                idlePose
            else idlePose) := by
  have hmain : generateKeypoints store gloss n true =
      if gestureExists store
          (if gloss.length ≤ 3 then "FINGERSPELL" else "UNKNOWN") then
        (List.range n).map
          (fun f =>
            (interpolateGesture store
              (if gloss.length ≤ 3 then "FINGERSPELL" else "UNKNOWN") f n).getD
              idlePose)
      else (List.range n).map (fun _ => idlePose) := by
    simp [generateKeypoints, h]
  constructor
  · rw [hmain]
    split_ifs <;> simp
  · intro f hf
    rw [hmain]
    split_ifs with hfb <;> simp [hf]

/-- Witness for c4_fallback_frames: the empty store and the five-letter
gloss XYZZY, whose UNKNOWN placeholder is also absent. -/
theorem c4_fallback_frames_witness :
    gestureExists ([] : Store) "XYZZY" = false ∧
      ((generateKeypoints ([] : Store) "XYZZY" 2 true).length = 2 ∧
        ∀ f, f < 2 →
          (generateKeypoints ([] : Store) "XYZZY" 2 true)[f]? =
            some
              (if gestureExists ([] : Store)
                  (if ("XYZZY" : String).length ≤ 3 then "FINGERSPELL"
                   else "UNKNOWN") then
                (interpolateGesture ([] : Store)
                  (if ("XYZZY" : String).length ≤ 3 then "FINGERSPELL"
                   else "UNKNOWN") f 2).getD idlePose
              else idlePose)) :=
  ⟨by decide, c4_fallback_frames ([] : Store) "XYZZY" 2 (by decide)⟩

/-! ### Loader invariant lemmas (claim C9) -/

theorem toKeyframe_time_mem {t : ℚ} {raw : RawKeyframe}
    (hok : keyframeOk raw = true) (hrt : raw.time = some t) :
    0 ≤ (toKeyframe raw).time ∧ (toKeyframe raw).time ≤ 1 := by
  cases hrp : raw.pose with
  | none => rw [keyframeOk, hrt, hrp] at hok; cases hok
  | some pose =>
    rw [keyframeOk, hrt, hrp] at hok
    simp only [Bool.and_eq_true, decide_eq_true_eq] at hok
    simp only [toKeyframe, hrt, Option.getD_some]
    exact ⟨hok.1.1, hok.1.2⟩

theorem loadGestureFile_wellFormed {raw : RawGestureDef} {g : Gesture}
    (h : loadGestureFile raw = some g) : gestureWellFormed g := by
  cases hn : raw.name with
  | none => rw [loadGestureFile, hn] at h; cases h
  | some name =>
  cases hfr : raw.frames with
  | none => rw [loadGestureFile, hn, hfr] at h; cases h
  | some frames =>
  cases hkf : raw.keyframes with
  | none => rw [loadGestureFile, hn, hfr, hkf] at h; cases h
  | some kfs =>
    simp only [loadGestureFile, hn, hfr, hkf] at h
    by_cases hnil : kfs = []
    · rw [if_pos hnil] at h; cases h
    · rw [if_neg hnil] at h
      by_cases hall : kfs.all keyframeOk = true
      · rw [if_pos hall, Option.some.injEq] at h
        subst h
        refine ⟨?_, ?_, ?_⟩
        · intro hc
          have hlen := congrArg List.length hc
          rw [List.length_insertionSort, List.length_map, List.length_nil] at hlen
          exact hnil (List.length_eq_zero.mp hlen)
        · exact (List.sorted_insertionSort kfLe (kfs.map toKeyframe)).chain'
        · intro kf hkfmem
          rw [List.mem_insertionSort] at hkfmem
          obtain ⟨rawkf, hrawmem, rfl⟩ := List.mem_map.mp hkfmem
          have hok : keyframeOk rawkf = true :=
            (List.all_eq_true.mp hall) rawkf hrawmem
          cases hrt : rawkf.time with
          | none => rw [keyframeOk, hrt] at hok; cases hok
          | some t => exact toKeyframe_time_mem hok hrt
      · rw [if_neg hall] at h; cases h

theorem mem_insertReplace {e : String × Gesture} {key : String} {g : Gesture} :
    ∀ {store : Store}, e ∈ insertReplace store key g →
      e = (key, g) ∨ e ∈ store := by
  intro store
  induction store with
  | nil =>
    intro h
    simp only [insertReplace, List.mem_singleton] at h
    exact Or.inl h
  | cons kv rest ih =>
    obtain ⟨k1, v1⟩ := kv
    intro h
    by_cases hk : k1 = key
    · rw [show insertReplace ((k1, v1) :: rest) key g = (key, g) :: rest from by
        simp [insertReplace, hk]] at h
      rcases List.mem_cons.mp h with rfl | h2
      · exact Or.inl rfl
      · exact Or.inr (List.mem_cons_of_mem (k1, v1) h2)
    · rw [show insertReplace ((k1, v1) :: rest) key g =
          (k1, v1) :: insertReplace rest key g from by
        simp [insertReplace, hk]] at h
      rcases List.mem_cons.mp h with rfl | h2
      · exact Or.inr (List.mem_cons_self _ rest)
      · rcases ih h2 with h3 | h3
        · exact Or.inl h3
        · exact Or.inr (List.mem_cons_of_mem (k1, v1) h3)

theorem loadFold_wellFormed :
    ∀ (raws : List RawGestureDef) (store : Store),
      (∀ e ∈ store, gestureWellFormed e.2) →
        ∀ e ∈ raws.foldl loadStep store, gestureWellFormed e.2 := by
  intro raws
  induction raws with
  | nil =>
    intro store hstore e he
    exact hstore e he
  | cons raw rest ih =>
    intro store hstore e he
    rw [List.foldl_cons] at he
    refine ih (loadStep store raw) ?_ e he
    intro u hu
    cases hl : loadGestureFile raw with
    | none =>
      rw [loadStep, hl] at hu
      exact hstore u hu
    | some g =>
      rw [loadStep, hl] at hu
      rcases mem_insertReplace hu with rfl | hmem
      · exact loadGestureFile_wellFormed hl
      · exact hstore u hmem

/-- C9 counterexample.  The claim requires every stored gesture to have
a nonempty name, but _load_gesture_file only checks that the name field
is present: a definition whose name is the empty string loads and is
stored, so the name part of the claimed invariant fails. -/
theorem c9_counterexample :
    loadAllGestures [c9EmptyNameRaw] = [("", ⟨"", 30, [⟨0, []⟩]⟩)] ∧
      (⟨"", 30, [⟨0, []⟩]⟩ : Gesture).name.length = 0 := by
  exact ⟨by decide, rfl⟩

/-- C9 as amended.  After a load, every gesture stored in the index has
a nonempty, time-sorted keyframe list with every time in [0,1] (the
name is only required to be present, not nonempty), and a definition
that fails validation is skipped without affecting the rest of the load. -/
theorem c9_load_invariant :
    (∀ (raws : List RawGestureDef), ∀ e ∈ loadAllGestures raws,
      gestureWellFormed e.2) ∧
      ∀ (bad : RawGestureDef) (raws : List RawGestureDef),
        loadGestureFile bad = none →
          loadAllGestures (bad :: raws) = loadAllGestures raws := by
  constructor
  · intro raws e he
    exact loadFold_wellFormed raws [] (by intro u hu; cases hu) e he
  · intro bad raws hbad
    rw [loadAllGestures, loadAllGestures, List.foldl_cons, loadStep, hbad]

/-- Witness for c9_load_invariant: a definition with unsorted keyframes
loads into a well-formed gesture, and a definition missing every field
is skipped. -/
theorem c9_load_invariant_witness :
    gestureWellFormed ("WAVE", c9Gesture).2 ∧
      (loadGestureFile c9BadRaw = none ∧
        loadAllGestures [c9BadRaw, c9GoodRaw] = loadAllGestures [c9GoodRaw]) :=
  ⟨c9_load_invariant.1 [c9GoodRaw] ("WAVE", c9Gesture) (by decide),
   rfl, c9_load_invariant.2 c9BadRaw [c9GoodRaw] rfl⟩

/-! ### Interpolation-at-keyframe lemmas (claim C6) -/

theorem head_lt_of_chain : ∀ {x : Keyframe} {xs : List Keyframe},
    List.Chain' kfLt (x :: xs) → ∀ y ∈ xs, x.time < y.time := by
  intro x xs
  induction xs generalizing x with
  | nil => intro _ y hy; cases hy
  | cons z zs ih =>
    intro h y hy
    have hxz : kfLt x z := (List.chain'_cons.mp h).1
    have htail : List.Chain' kfLt (z :: zs) := (List.chain'_cons.mp h).2
    rcases List.mem_cons.mp hy with rfl | hy2
    · exact hxz
    · exact lt_trans hxz (ih htail y hy2)

theorem lastKF_mem : ∀ (xs : List Keyframe) (x : Keyframe), lastKF x xs ∈ x :: xs := by
  intro xs
  induction xs with
  | nil => intro x; exact List.mem_cons_self x []
  | cons z zs ih =>
    intro x
    exact List.mem_cons_of_mem x (ih z)

theorem le_lastKF_of_chain : ∀ {x : Keyframe} {xs : List Keyframe},
    List.Chain' kfLt (x :: xs) → ∀ y ∈ x :: xs, y.time ≤ (lastKF x xs).time := by
  intro x xs
  induction xs generalizing x with
  | nil =>
    intro _ y hy
    rcases List.mem_cons.mp hy with rfl | h
    · exact le_refl _
    · cases h
  | cons z zs ih =>
    intro h y hy
    have hxz : kfLt x z := (List.chain'_cons.mp h).1
    have htail : List.Chain' kfLt (z :: zs) := (List.chain'_cons.mp h).2
    rcases List.mem_cons.mp hy with rfl | hy2
    · exact le_trans (le_of_lt hxz) (ih htail z (List.mem_cons_self z zs))
    · exact ih htail y hy2

theorem time_inj_of_chain : ∀ {l : List Keyframe}, List.Chain' kfLt l →
    ∀ a ∈ l, ∀ b ∈ l, a.time = b.time → a = b := by
  intro l
  induction l with
  | nil => intro _ a ha; cases ha
  | cons x xs ih =>
    intro h a ha b hb heq
    have htail : List.Chain' kfLt xs := h.tail
    rcases List.mem_cons.mp ha with rfl | ha2 <;>
      rcases List.mem_cons.mp hb with rfl | hb2
    · rfl
    · exact absurd heq (ne_of_lt (head_lt_of_chain h b hb2))
    · exact absurd heq.symm (ne_of_lt (head_lt_of_chain h a ha2))
    · exact ih htail a ha2 b hb2 heq

theorem findBracket_at_keyframe : ∀ {l : List Keyframe} {a k : Keyframe},
    List.Chain' kfLt (a :: l) → k ∈ l →
      ∃ kp, kp.time < k.time ∧ findBracket k.time (a :: l) = some (kp, k) := by
  intro l
  induction l with
  | nil => intro a k _ hk; cases hk
  | cons b l2 ih =>
    intro a k h hk
    have hab : kfLt a b := (List.chain'_cons.mp h).1
    have htail : List.Chain' kfLt (b :: l2) := (List.chain'_cons.mp h).2
    rcases List.mem_cons.mp hk with rfl | hk2
    · refine ⟨a, hab, ?_⟩
      have hguard : a.time ≤ k.time ∧ k.time ≤ k.time := ⟨le_of_lt hab, le_refl _⟩
      simp only [findBracket]
      rw [if_pos hguard]
    · have hbk : b.time < k.time := head_lt_of_chain htail k hk2
      have hguard : ¬ (a.time ≤ k.time ∧ k.time ≤ b.time) := by
        intro hc
        exact absurd hc.2 (not_le.mpr hbk)
      obtain ⟨kp, hlt, heq⟩ := ih htail hk2
      refine ⟨kp, hlt, ?_⟩
      simp only [findBracket]
      rw [if_neg hguard, heq]

theorem linearInterpolate_one (a b : ℚ) : linearInterpolate a b 1 = b := by
  unfold linearInterpolate
  ring

theorem jointVal_self (pp : List (String × (ℚ × ℚ))) (t : ℚ) (j : String) :
    jointVal pp pp t j = (lookupJ pp j).getD (defaultFor j) := by
  cases h : lookupJ pp j with
  | none => simp [jointVal, h]
  | some c => simp [jointVal, h]

theorem jointVal_one (pp qq : List (String × (ℚ × ℚ))) (j : String) :
    jointVal pp qq 1 j = (lookupJ qq j).getD (defaultFor j) := by
  cases hq : lookupJ qq j with
  | none =>
    cases hp : lookupJ pp j with
    | none => simp [jointVal, hp, hq]
    | some c =>
      simp only [jointVal, hp, hq, Option.isSome_some, Option.isSome_none,
        Bool.or_false, if_true, Option.getD_some, Option.getD_none]
      split_ifs with heq
      · exact heq
      · rw [linearInterpolate_one, linearInterpolate_one]
  | some c =>
    cases hp : lookupJ pp j with
    | none =>
      simp only [jointVal, hp, hq, Option.isSome_some, Option.isSome_none,
        Bool.false_or, if_true, Option.getD_some, Option.getD_none]
      split_ifs with heq
      · exact heq
      · rw [linearInterpolate_one, linearInterpolate_one]
    | some d =>
      simp only [jointVal, hp, hq, Option.isSome_some, Bool.or_self, if_true,
        Option.getD_some]
      split_ifs with heq
      · exact heq
      · rw [linearInterpolate_one, linearInterpolate_one]

theorem interpPose_self (pp : List (String × (ℚ × ℚ))) (t : ℚ) :
    mkPose (jointVal pp pp t) = fillDefaults pp := by
  simp [mkPose, fillDefaults, jointVal_self]

theorem interpPose_one (pp qq : List (String × (ℚ × ℚ))) :
    mkPose (jointVal pp qq 1) = fillDefaults qq := by
  simp [mkPose, fillDefaults, jointVal_one]

/-- C6 counterexample.  The claim quantifies over every loaded gesture
with at least two keyframes, but the loader accepts duplicate keyframe
times: for two keyframes at time 1/2 with different poses, interpolating
at exactly the second keyframe's time returns the first keyframe's pose,
not the second's. -/
theorem c6_counterexample :
    List.Chain' kfLe [c6kfA, c6kfB] ∧
      (∀ kf ∈ [c6kfA, c6kfB], 0 ≤ kf.time ∧ kf.time ≤ 1) ∧
      2 ≤ ([c6kfA, c6kfB] : List Keyframe).length ∧
      c6kfB ∈ [c6kfA, c6kfB] ∧
      interpolatedPoseAt [c6kfA, c6kfB] c6kfB.time ≠
        some (fillDefaults c6kfB.pose) := by
  refine ⟨List.chain'_cons.mpr ⟨by decide, List.chain'_singleton c6kfB⟩,
    by decide, by decide, by decide, by decide⟩

/-- C6 as amended.  For every keyframe list with at least two keyframes,
strictly increasing times all lying in [0,1], interpolating at a
progress exactly equal to a keyframe's time returns that keyframe's
pose, with joints absent from it filled from the static default pose. -/
theorem c6_keyframe_time_exact (kfs : List Keyframe)
    (hchain : List.Chain' kfLt kfs)
    (hlen : 2 ≤ kfs.length)
    (hrange : ∀ kf ∈ kfs, 0 ≤ kf.time ∧ kf.time ≤ 1)
    (k : Keyframe) (hk : k ∈ kfs) :
    interpolatedPoseAt kfs k.time = some (fillDefaults k.pose) := by
  match kfs, hlen, hchain, hrange, hk with
  | k0 :: k1 :: rest2, _, hchain, hrange, hk =>
    have hkr := hrange k hk
    have hclamp : clampQ k.time = k.time := by
      unfold clampQ
      rw [min_eq_right hkr.2, max_eq_right hkr.1]
    have hhead : k0.time ≤ k.time := by
      rcases List.mem_cons.mp hk with rfl | hk2
      · exact le_refl _
      · exact le_of_lt (head_lt_of_chain hchain k hk2)
    simp only [interpolatedPoseAt, findSurroundingKeyframes, hclamp,
      List.cons_ne_self, if_neg (List.cons_ne_nil k1 rest2)]
    by_cases h1 : k.time ≤ k0.time
    · have hk0 : k = k0 :=
        time_inj_of_chain hchain k hk k0 (List.mem_cons_self k0 _)
          (le_antisymm h1 hhead)
      rw [if_pos h1]
      simp only [Option.map_some']
      rw [interpPose_self, hk0]
    · rw [if_neg h1]
      by_cases h2 : (lastKF k0 (k1 :: rest2)).time ≤ k.time
      · have hlast : k = lastKF k0 (k1 :: rest2) :=
          time_inj_of_chain hchain k hk _ (lastKF_mem (k1 :: rest2) k0)
            (le_antisymm (le_lastKF_of_chain hchain k hk) h2)
        rw [if_pos h2]
        simp only [Option.map_some']
        rw [interpPose_self, hlast]
      · rw [if_neg h2]
        have hk2 : k ∈ k1 :: rest2 := by
          rcases List.mem_cons.mp hk with rfl | h
          · exact absurd (le_refl k.time) h1
          · exact h
        obtain ⟨kp, hkp_lt, hfb⟩ := findBracket_at_keyframe hchain hk2
        rw [hfb]
        have htr : k.time - kp.time ≠ 0 := sub_ne_zero.mpr (ne_of_gt hkp_lt)
        simp only [Option.getD_some, Option.map_some']
        rw [if_neg htr, div_self htr, interpPose_one]

/-- Witness for c6_keyframe_time_exact: a three-keyframe gesture and its
middle keyframe. -/
theorem c6_keyframe_time_exact_witness :
    List.Chain' kfLt [⟨0, []⟩, ⟨mkRat 1 2, [("RIGHT_WRIST", (1, 1))]⟩,
        ⟨1, [("LEFT_WRIST", (1, 0))]⟩] ∧
      2 ≤ ([⟨0, []⟩, ⟨mkRat 1 2, [("RIGHT_WRIST", (1, 1))]⟩,
        ⟨1, [("LEFT_WRIST", (1, 0))]⟩] : List Keyframe).length ∧
      (∀ kf ∈ ([⟨0, []⟩, ⟨mkRat 1 2, [("RIGHT_WRIST", (1, 1))]⟩,
        ⟨1, [("LEFT_WRIST", (1, 0))]⟩] : List Keyframe),
        0 ≤ kf.time ∧ kf.time ≤ 1) ∧
      (⟨mkRat 1 2, [("RIGHT_WRIST", (1, 1))]⟩ : Keyframe) ∈
        ([⟨0, []⟩, ⟨mkRat 1 2, [("RIGHT_WRIST", (1, 1))]⟩,
          ⟨1, [("LEFT_WRIST", (1, 0))]⟩] : List Keyframe) ∧
      interpolatedPoseAt
          [⟨0, []⟩, ⟨mkRat 1 2, [("RIGHT_WRIST", (1, 1))]⟩,
            ⟨1, [("LEFT_WRIST", (1, 0))]⟩]
          (⟨mkRat 1 2, [("RIGHT_WRIST", (1, 1))]⟩ : Keyframe).time =
        some (fillDefaults (⟨mkRat 1 2, [("RIGHT_WRIST", (1, 1))]⟩ : Keyframe).pose) :=
  ⟨List.chain'_cons.mpr ⟨by decide, List.chain'_cons.mpr
      ⟨by decide, List.chain'_singleton _⟩⟩,
   by decide, by decide, by decide,
   c6_keyframe_time_exact _
     (List.chain'_cons.mpr ⟨by decide, List.chain'_cons.mpr
       ⟨by decide, List.chain'_singleton _⟩⟩)
     (by decide) (by decide) _ (by decide)⟩

end SignMVP
